import Mathlib

/-!
Verification of the StudioFlow backend services against their design
specification.  Shallow embedding: Python strings are modelled as `List Char`,
Python floats as `ℚ`, fallible operations as `Option`/`Except`.  External
libraries (Firebase Admin, PyJWT, pandas, matplotlib, ReportLab, PIL) are
modelled either as abstract function parameters or as restricted executable
models; each such restriction is noted on the definition it concerns.
-/

namespace StudioFlow

/-! ### Generic string utilities (the `List Char` model of Python `str`) -/

/-- Model of Python `str.split(sep)` for a one-character separator: empty
chunks are kept and the result is always non-empty. -/
def splitOnChar (sep : Char) : List Char → List (List Char)
  | [] => [[]]
  | c :: rest =>
    if c = sep then [] :: splitOnChar sep rest
    else
      match splitOnChar sep rest with
      | [] => [[c]]
      | h :: t => (c :: h) :: t

/-- Model of Python `sep.join(xs)` for a one-character separator. -/
def joinSep (sep : Char) : List (List Char) → List Char
  | [] => []
  | [x] => x
  | x :: y :: t => x ++ sep :: joinSep sep (y :: t)

/-- Model of Python `str.strip()` (without arguments). -/
def trimChars (s : List Char) : List Char :=
  ((s.dropWhile Char.isWhitespace).reverse.dropWhile Char.isWhitespace).reverse

theorem splitOnChar_ne_nil (sep : Char) (s : List Char) :
    splitOnChar sep s ≠ [] := by
  cases s with
  | nil => simp [splitOnChar]
  | cons c rest =>
    simp only [splitOnChar]
    split
    · simp
    · split <;> simp

theorem splitOnChar_cons_sep (sep : Char) (r : List Char) :
    splitOnChar sep (sep :: r) = [] :: splitOnChar sep r := by
  simp [splitOnChar]

theorem splitOnChar_append_cons (sep : Char) (x r : List Char) (hx : sep ∉ x) :
    splitOnChar sep (x ++ sep :: r) = x :: splitOnChar sep r := by
  induction x with
  | nil => simp [splitOnChar_cons_sep]
  | cons c xs ih =>
    have hc : ¬ (c = sep) := fun h => hx (by simp [h])
    have hxs : sep ∉ xs := fun h => hx (by simp [h])
    simp only [List.cons_append, splitOnChar, if_neg hc, List.append_eq]
    rw [ih hxs]

theorem splitOnChar_eq_self (sep : Char) (x : List Char) (hx : sep ∉ x) :
    splitOnChar sep x = [x] := by
  induction x with
  | nil => rfl
  | cons c xs ih =>
    have hc : ¬ (c = sep) := fun h => hx (by simp [h])
    have hxs : sep ∉ xs := fun h => hx (by simp [h])
    simp only [splitOnChar, if_neg hc, ih hxs]

theorem splitOnChar_joinSep (sep : Char) (xs : List (List Char))
    (hne : xs ≠ []) (hclean : ∀ x ∈ xs, sep ∉ x) :
    splitOnChar sep (joinSep sep xs) = xs := by
  induction xs with
  | nil => exact absurd rfl hne
  | cons x t ih =>
    cases t with
    | nil =>
      simpa [joinSep] using splitOnChar_eq_self sep x (hclean x (by simp))
    | cons y t2 =>
      have hx : sep ∉ x := hclean x (by simp)
      simp only [joinSep]
      rw [splitOnChar_append_cons sep x _ hx]
      rw [ih (by simp) (fun z hz => hclean z (by simp [hz]))]

theorem not_mem_of_mem_splitOnChar (sep : Char) (s y : List Char)
    (hy : y ∈ splitOnChar sep s) : sep ∉ y := by
  induction s generalizing y with
  | nil => simp [splitOnChar] at hy; simp [hy]
  | cons c rest ih =>
    simp only [splitOnChar] at hy
    by_cases hc : c = sep
    · rw [if_pos hc] at hy
      rcases List.mem_cons.mp hy with h | h
      · simp [h]
      · exact ih y h
    · rw [if_neg hc] at hy
      rcases hsp : splitOnChar sep rest with _ | ⟨h0, t0⟩
      · exact absurd hsp (splitOnChar_ne_nil sep rest)
      · rw [hsp] at hy
        rcases List.mem_cons.mp hy with h | h
        · subst h
          intro hmem
          rcases List.mem_cons.mp hmem with h | h
          · exact hc h.symm
          · exact ih h0 (by simp [hsp]) h
        · exact ih y (by simp [hsp, h])

theorem mem_of_mem_splitOnChar (sep : Char) (s y : List Char) (a : Char)
    (hy : y ∈ splitOnChar sep s) (ha : a ∈ y) : a ∈ s := by
  induction s generalizing y with
  | nil => simp [splitOnChar] at hy; subst hy; simp at ha
  | cons c rest ih =>
    simp only [splitOnChar] at hy
    by_cases hc : c = sep
    · rw [if_pos hc] at hy
      rcases List.mem_cons.mp hy with h | h
      · subst h; simp at ha
      · exact List.mem_cons_of_mem c (ih y h ha)
    · rw [if_neg hc] at hy
      rcases hsp : splitOnChar sep rest with _ | ⟨h0, t0⟩
      · exact absurd hsp (splitOnChar_ne_nil sep rest)
      · rw [hsp] at hy
        rcases List.mem_cons.mp hy with h | h
        · subst h
          rcases List.mem_cons.mp ha with h | h
          · simp [h]
          · exact List.mem_cons_of_mem c (ih h0 (by simp [hsp]) h)
        · exact List.mem_cons_of_mem c (ih y (by simp [hsp, h]) ha)

theorem joinSep_eq_nil_iff (sep : Char) (xs : List (List Char)) :
    joinSep sep xs = [] ↔ xs = [] ∨ xs = [[]] := by
  match xs with
  | [] => simp [joinSep]
  | [x] => simp [joinSep]
  | x :: y :: t => simp [joinSep]

theorem mem_joinSep (sep : Char) (xs : List (List Char)) (a : Char)
    (ha : a ∈ joinSep sep xs) : a = sep ∨ ∃ x ∈ xs, a ∈ x := by
  induction xs with
  | nil => simp [joinSep] at ha
  | cons x t ih =>
    cases t with
    | nil =>
      simp only [joinSep] at ha
      exact Or.inr ⟨x, by simp, ha⟩
    | cons y t2 =>
      simp only [joinSep, List.mem_append, List.mem_cons] at ha
      rcases ha with h | h | h
      · exact Or.inr ⟨x, by simp, h⟩
      · exact Or.inl h
      · rcases ih h with h | ⟨z, hz, haz⟩
        · exact Or.inl h
        · exact Or.inr ⟨z, by simp [hz], haz⟩

/-- All-or-nothing traversal with `Option`, modelling a Python list
comprehension inside a `try` block: the first failure aborts the whole list. -/
def traverseOpt (f : α → Option β) : List α → Option (List β)
  | [] => some []
  | x :: xs =>
    match f x, traverseOpt f xs with
    | some y, some ys => some (y :: ys)
    | _, _ => none

theorem traverseOpt_eq_none (f : α → Option β) (l : List α)
    (h : ∃ x ∈ l, f x = none) : traverseOpt f l = none := by
  induction l with
  | nil => simp at h
  | cons x xs ih =>
    rcases h with ⟨z, hz, hfz⟩
    rcases List.mem_cons.mp hz with h | h
    · subst h; simp [traverseOpt, hfz]
    · simp only [traverseOpt]
      rw [ih ⟨z, h, hfz⟩]
      cases f x <;> simp

theorem traverseOpt_eq_some_of_forall (f : α → Option β) (g : α → β) (l : List α)
    (h : ∀ x ∈ l, f x = some (g x)) : traverseOpt f l = some (l.map g) := by
  induction l with
  | nil => simp [traverseOpt]
  | cons x xs ih =>
    simp only [traverseOpt, h x (by simp), ih (fun z hz => h z (by simp [hz]))]
    simp

theorem exists_of_traverseOpt_eq_some (f : α → Option β) (l : List α) (ys : List β)
    (h : traverseOpt f l = some ys) : ∀ y ∈ ys, ∃ x ∈ l, f x = some y := by
  induction l generalizing ys with
  | nil => simp [traverseOpt] at h; subst h; simp
  | cons x xs ih =>
    simp only [traverseOpt] at h
    rcases hfx : f x with _ | y0 <;> rw [hfx] at h
    · simp at h
    · rcases hrest : traverseOpt f xs with _ | ys0 <;> rw [hrest] at h
      · simp at h
      · simp only [Option.some.injEq] at h
        subst h
        intro y hy
        rcases List.mem_cons.mp hy with h | h
        · exact ⟨x, by simp, by simp [hfx, h]⟩
        · rcases ih ys0 hrest y h with ⟨z, hz, hfz⟩
          exact ⟨z, by simp [hz], hfz⟩

/-! ### A model of Python `float(str)` over `ℚ`

`float()` on an already-stripped string accepts an optional sign, a decimal
mantissa (digits, optionally with a fractional part), and an optional
exponent.  The special forms `inf`/`nan` and digit underscores are not
modelled; the binary rounding of IEEE doubles is abstracted by exact `ℚ`
arithmetic. -/

def natOfDigits (ds : List Char) : ℕ :=
  ds.foldl (fun n c => 10 * n + (c.toNat - 48)) 0

def parseExpPart : List Char → Option ℤ
  | [] => none
  | '+' :: ds =>
    if ds ≠ [] ∧ ds.all Char.isDigit then some (natOfDigits ds) else none
  | '-' :: ds =>
    if ds ≠ [] ∧ ds.all Char.isDigit then some (-(natOfDigits ds : ℤ)) else none
  | ds =>
    if ds.all Char.isDigit then some (natOfDigits ds) else none

def parseMantissa (s : List Char) : Option (ℚ × List Char) :=
  let ip := s.takeWhile Char.isDigit
  let r1 := s.dropWhile Char.isDigit
  match r1 with
  | '.' :: r2 =>
    let fp := r2.takeWhile Char.isDigit
    let r3 := r2.dropWhile Char.isDigit
    if ip = [] ∧ fp = [] then none
    else some ((natOfDigits ip : ℚ) + (natOfDigits fp : ℚ) / (10 : ℚ) ^ fp.length, r3)
  | _ => if ip = [] then none else some ((natOfDigits ip : ℚ), r1)

def parseUnsignedFloat (s : List Char) : Option ℚ := do
  let (m, rest) ← parseMantissa s
  match rest with
  | [] => some m
  | 'e' :: es => (parseExpPart es).map (fun k => m * (10 : ℚ) ^ k)
  | 'E' :: es => (parseExpPart es).map (fun k => m * (10 : ℚ) ^ k)
  | _ => none

/-- Model of Python `float(s)` for a stripped token `s`. -/
def parseFloat? : List Char → Option ℚ
  | '+' :: r => parseUnsignedFloat r
  | '-' :: r => (parseUnsignedFloat r).map (fun q => -q)
  | r => parseUnsignedFloat r

/-! ### GraphService (`src/backend/services/graph_service.py`) -/

/-- The tokenization `[t.strip() for t in raw.split(',') if t.strip()]` shared
by the labels of `process_chart_data` and `generate_matplotlib_plot`, and by
their values before float conversion. -/
def cleanTokens (raw : List Char) : List (List Char) :=
  ((splitOnChar ',' raw).map trimChars).filter (· ≠ [])

/-- `[float(v.strip()) for v in raw.split(',') if v.strip()]` inside
`try ... except ValueError: values = []`: a single bad token discards the
whole list. -/
def parseValues (raw : List Char) : List ℚ :=
  match traverseOpt parseFloat? (cleanTokens raw) with
  | some vs => vs
  | none => []

/-- `(xs + [pad] * n)[:n]`, the padding-and-truncation idiom of
`process_chart_data`. -/
def padTruncate (pad : α) (xs : List α) (n : ℕ) : List α :=
  (xs ++ List.replicate n pad).take n

/-- `max(values) if values else 0`. -/
def pyMax : List ℚ → ℚ
  | [] => 0
  | v :: vs => vs.foldl max v

/-- `min(values) if values else 0`. -/
def pyMin : List ℚ → ℚ
  | [] => 0
  | v :: vs => vs.foldl min v

/-- The request payload of the chart endpoints: `data.get('labels', '')`,
`data.get('values', '')`, `data.get('type', 'bar')`, `data.get('title', ...)`
each modelled as the retrieved string. -/
structure ChartInput where
  labels : List Char
  values : List Char
  ctype : List Char
  title : List Char

structure Stats where
  sum : ℚ
  avg : ℚ
  max : ℚ
  min : ℚ
deriving DecidableEq, Repr

/-- `_get_colors` returns a single color string for bar/line and a list for
pie. -/
inductive ColorSpec where
  | single (c : List Char)
  | many (cs : List (List Char))
deriving DecidableEq, Repr

def paletteColors : List (List Char) :=
  ["rgba(13, 148, 136, 0.7)".data,
   "rgba(110, 231, 183, 0.7)".data,
   "rgba(51, 65, 85, 0.7)".data,
   "rgba(204, 251, 241, 0.7)".data,
   "rgba(15, 118, 110, 0.7)".data]

def get_colors (ctype : List Char) (count : ℕ) : ColorSpec :=
  if ctype = "pie".data then
    .many ((List.range count).map (fun i => paletteColors.getD (i % paletteColors.length) []))
  else .single (paletteColors.getD 0 [])

structure Dataset where
  label : List Char
  data : List ℚ
  backgroundColor : ColorSpec
  borderColor : List Char
  borderWidth : ℕ
deriving DecidableEq, Repr

structure ChartOutput where
  labels : List (List Char)
  datasets : List Dataset
  stats : Stats
deriving DecidableEq, Repr

/-- `GraphService.process_chart_data`. -/
def process_chart_data (d : ChartInput) : ChartOutput :=
  let labels := cleanTokens d.labels
  let values := parseValues d.values
  let max_len := max labels.length values.length
  let labels := padTruncate "Label".data labels max_len
  let values := padTruncate (0 : ℚ) values max_len
  { labels := labels
    datasets := [{ label := d.title
                   data := values
                   backgroundColor := get_colors d.ctype values.length
                   borderColor := "#0d9488".data
                   borderWidth := 1 }]
    stats := { sum := values.sum
               avg := if values = [] then 0 else values.sum / values.length
               max := pyMax values
               min := pyMin values } }

/-- `GraphService.generate_matplotlib_plot`, modelled up to the matplotlib
rasterization: the PNG/base64 image is external library output and is not
modelled; the labels and values actually plotted and the returned stats
block are. -/
structure MplOutput where
  labels : List (List Char)
  values : List ℚ
  stats : Stats
deriving DecidableEq, Repr

def generate_matplotlib_plot (d : ChartInput) : MplOutput :=
  let labels := cleanTokens d.labels
  let values := parseValues d.values
  let max_len := max labels.length values.length
  let labels :=
    if labels.length < max_len then labels ++ List.replicate (max_len - labels.length) "".data
    else labels
  let values :=
    if values.length < max_len then values ++ List.replicate (max_len - values.length) (0 : ℚ)
    else values
  { labels := labels
    values := values
    stats := { sum := values.sum
               avg := if values = [] then 0 else values.sum / values.length
               max := pyMax values
               min := pyMin values } }

/-- Descriptive statistics over a value sequence as the specification words
them: sum, average, maximum and minimum, with average, maximum and minimum
defaulting to `0` when the sequence is empty. -/
def specStats (vs : List ℚ) : Stats :=
  { sum := vs.sum
    avg := if vs = [] then 0 else vs.sum / vs.length
    max := pyMax vs
    min := pyMin vs }

theorem padTruncate_eq_append (pad : α) (xs : List α) (n : ℕ) (h : xs.length ≤ n) :
    padTruncate pad xs n = xs ++ List.replicate (n - xs.length) pad := by
  unfold padTruncate
  rw [List.take_append_eq_append_take, List.take_of_length_le h, List.take_replicate]
  have : min (n - xs.length) n = n - xs.length := by omega
  rw [this]

theorem length_padTruncate (pad : α) (xs : List α) (n : ℕ) (h : xs.length ≤ n) :
    (padTruncate pad xs n).length = n := by
  rw [padTruncate_eq_append pad xs n h]
  simp
  omega

theorem padTruncate_length_self (pad : α) (xs : List α) :
    padTruncate pad xs xs.length = xs := by
  rw [padTruncate_eq_append pad xs xs.length le_rfl]
  simp

theorem padTruncate_nil (pad : α) (n : ℕ) :
    padTruncate pad ([] : List α) n = List.replicate n pad := by
  simp [padTruncate, List.take_replicate]

theorem cond_pad_eq_padTruncate (pad : α) (xs : List α) (n : ℕ) (h : xs.length ≤ n) :
    (if xs.length < n then xs ++ List.replicate (n - xs.length) pad else xs)
      = padTruncate pad xs n := by
  rw [padTruncate_eq_append pad xs n h]
  by_cases hlt : xs.length < n
  · rw [if_pos hlt]
  · rw [if_neg hlt]
    have hz : n - xs.length = 0 := by omega
    simp [hz]

/-- C1 (amended): for every input, the returned stats object of
`process_chart_data` is the descriptive statistics {sum, avg, max, min}
computed over the *padded* values sequence — the parsed floats padded with 0
up to the length of the longer of the two parsed sequences (which is also
exactly the returned data array) — with avg, max, min equal to 0 when that
padded sequence is empty. -/
theorem chart_stats_over_padded_values (d : ChartInput) :
    (process_chart_data d).datasets.map Dataset.data
      = [padTruncate 0 (parseValues d.values)
          (max (cleanTokens d.labels).length (parseValues d.values).length)] ∧
    (process_chart_data d).stats
      = specStats (padTruncate 0 (parseValues d.values)
          (max (cleanTokens d.labels).length (parseValues d.values).length)) := by
  exact ⟨rfl, rfl⟩

/-- C1 (counterexample): for labels "a,b" and values "5" the parsed values
sequence is `[5]`, whose descriptive statistics have avg and min equal to 5,
but `process_chart_data` pads the values to `[5, 0]` first and returns
avg 5/2 and min 0, so the stats are not computed over the parsed values
sequence. -/
theorem chart_stats_claim_cex :
    ¬ ((process_chart_data ⟨"a,b".data, "5".data, "bar".data, "T".data⟩).stats
        = specStats (parseValues "5".data)) := by
  intro h
  have hmin := congrArg Stats.min h
  have h1 : (process_chart_data ⟨"a,b".data, "5".data, "bar".data, "T".data⟩).stats.min
      = 0 := by decide
  have h2 : (specStats (parseValues "5".data)).min = 5 := by decide
  rw [h1, h2] at hmin
  exact absurd hmin (by decide)

/-- C2: if any cleaned value token fails float parsing, the whole parsed
values sequence becomes empty, the returned labels are exactly the parsed
labels (unaffected), and the returned values are 0s padded up to the label
count. -/
theorem chart_value_parse_failure (d : ChartInput)
    (h : ∃ t ∈ cleanTokens d.values, parseFloat? t = none) :
    parseValues d.values = [] ∧
    (process_chart_data d).labels = cleanTokens d.labels ∧
    (process_chart_data d).datasets.map Dataset.data
      = [List.replicate (cleanTokens d.labels).length (0 : ℚ)] := by
  have hv : parseValues d.values = [] := by
    unfold parseValues
    rw [traverseOpt_eq_none parseFloat? _ h]
  refine ⟨hv, ?_, ?_⟩
  · simp [process_chart_data, hv, padTruncate_length_self]
  · simp [process_chart_data, hv, padTruncate_nil]

/-- C2 (witness): values "1,x,3" with labels "a,b" yields values [0, 0]. -/
theorem chart_value_parse_failure_witness :
    (∃ t ∈ cleanTokens "1,x,3".data, parseFloat? t = none) ∧
    (process_chart_data ⟨"a,b".data, "1,x,3".data, "bar".data, "T".data⟩).datasets.map
        Dataset.data = [[0, 0]] := by
  refine ⟨by decide, ?_⟩
  have h := chart_value_parse_failure ⟨"a,b".data, "1,x,3".data, "bar".data, "T".data⟩
    (by decide)
  rw [h.2.2]
  decide

/-- C3: after parsing, the shorter sequence is padded to the length of the
longer — labels with the literal "Label", values with 0 — so the returned
labels and data arrays have equal length; in particular labels "a,b" with
values "1,2,3" returns three labels, the third being "Label", and three
values. -/
theorem chart_padding :
    (∀ d : ChartInput,
      (process_chart_data d).labels
          = cleanTokens d.labels
            ++ List.replicate
              (max (cleanTokens d.labels).length (parseValues d.values).length
                - (cleanTokens d.labels).length) "Label".data ∧
        (process_chart_data d).datasets.map Dataset.data
          = [parseValues d.values
              ++ List.replicate
                (max (cleanTokens d.labels).length (parseValues d.values).length
                  - (parseValues d.values).length) (0 : ℚ)] ∧
        ((process_chart_data d).datasets.map Dataset.data).flatten.length
          = (process_chart_data d).labels.length) ∧
    ((process_chart_data ⟨"a,b".data, "1,2,3".data, "bar".data, "T".data⟩).labels
        = [['a'], ['b'], "Label".data] ∧
      (process_chart_data ⟨"a,b".data, "1,2,3".data, "bar".data, "T".data⟩).datasets.map
          Dataset.data = [[1, 2, 3]]) := by
  refine ⟨fun d => ⟨?_, ?_, ?_⟩, by decide⟩
  · simp [process_chart_data, padTruncate_eq_append _ _ _
      (le_max_left (cleanTokens d.labels).length (parseValues d.values).length)]
  · simp [process_chart_data, padTruncate_eq_append _ _ _
      (le_max_right (cleanTokens d.labels).length (parseValues d.values).length)]
  · simp [process_chart_data,
      length_padTruncate _ _ _
        (le_max_left (cleanTokens d.labels).length (parseValues d.values).length),
      length_padTruncate _ _ _
        (le_max_right (cleanTokens d.labels).length (parseValues d.values).length)]

/-- C4: `generate_matplotlib_plot` tokenizes, parses and pads by exactly the
same rules as `process_chart_data` (same `cleanTokens`, same all-or-nothing
`parseValues`, same padding of values with 0 to the longer length, so its
plotted values coincide with the chart data array), except labels are padded
with the empty string instead of the literal "Label". -/
theorem matplotlib_same_rules (d : ChartInput) :
    (generate_matplotlib_plot d).labels
      = padTruncate "".data (cleanTokens d.labels)
          (max (cleanTokens d.labels).length (parseValues d.values).length) ∧
    (generate_matplotlib_plot d).values
      = padTruncate (0 : ℚ) (parseValues d.values)
          (max (cleanTokens d.labels).length (parseValues d.values).length) ∧
    (process_chart_data d).datasets.map Dataset.data
      = [(generate_matplotlib_plot d).values] := by
  refine ⟨?_, ?_, ?_⟩
  · simp only [generate_matplotlib_plot]
    rw [cond_pad_eq_padTruncate _ _ _
      (le_max_left (cleanTokens d.labels).length (parseValues d.values).length)]
  · simp only [generate_matplotlib_plot]
    rw [cond_pad_eq_padTruncate _ _ _
      (le_max_right (cleanTokens d.labels).length (parseValues d.values).length)]
  · simp only [generate_matplotlib_plot, process_chart_data]
    rw [cond_pad_eq_padTruncate _ _ _
      (le_max_right (cleanTokens d.labels).length (parseValues d.values).length)]
    simp

/-! ### CSVService (`src/backend/services/csv_service.py`)

The pandas layer is modelled for the untyped, unquoted fragment of CSV:
`read_csv` takes the first non-blank line as the header, skips blank lines,
splits fields on commas, turns empty fields into NaN, pads short rows with
NaN and rejects rows with more fields than columns.  Cell type inference,
quoting and the textual NA tokens of pandas are outside the model. -/

/-- A pandas cell: `none` is NaN. -/
abbrev Cell := Option (List Char)

/-- An empty field is NaN, any other field is its text. -/
def toCell (f : List Char) : Cell :=
  if f = [] then none else some f

def parseRow (ncols : ℕ) (line : List Char) : Option (List Cell) :=
  let fs := splitOnChar ',' line
  if ncols < fs.length then none
  else some (fs.map toCell ++ List.replicate (ncols - fs.length) (none : Option (List Char)))

/-- Model of `pd.read_csv` on the fragment described above. -/
def read_csv (s : List Char) : Option (List (List Char) × List (List Cell)) :=
  match (splitOnChar '\n' s).filter (· ≠ []) with
  | [] => none
  | header :: body =>
    let cols := splitOnChar ',' header
    (traverseOpt (parseRow cols.length) body).map (fun rows => (cols, rows))

/-- The success payload of `CSVService.import_csv`: column list plus the
rows as per-row dictionaries (`df.to_dict('records')`) with NaN cells
replaced by the empty string. -/
structure ImportOk where
  columns : List (List Char)
  rows : List (List (List Char × List Char))
  rowCount : ℕ
  columnCount : ℕ
deriving DecidableEq, Repr

/-- `CSVService.import_csv`; the `except` branch returning
`{success: false}` is modelled by `none`. -/
def import_csv (s : List Char) : Option ImportOk :=
  (read_csv s).map (fun p =>
    { columns := p.1
      rows := p.2.map (fun cells => p.1.zip (cells.map (fun c => c.getD [])))
      rowCount := p.2.length
      columnCount := p.1.length })

/-- `CSVService.export_to_csv`: rebuild a table from the rows constrained to
the given columns (`pd.DataFrame(rows, columns=columns)`, a missing key is
NaN) and serialize it with a header line, no index column, and a trailing
line terminator after every line (`df.to_csv(index=False)`). -/
def export_to_csv (r : ImportOk) : List Char :=
  let lines := joinSep ',' r.columns ::
    r.rows.map (fun row => joinSep ',' (r.columns.map (fun c => (List.lookup c row).getD [])))
  (lines.map (fun l => l ++ ['\n'])).flatten

end StudioFlow

namespace StudioFlow

theorem splitOnChar_flatten_lines (lines : List (List Char))
    (h : ∀ l ∈ lines, '\n' ∉ l) :
    splitOnChar '\n' ((lines.map (fun l => l ++ ['\n'])).flatten) = lines ++ [[]] := by
  induction lines with
  | nil => simp [splitOnChar]
  | cons l ls ih =>
    have hl : '\n' ∉ l := h l (by simp)
    simp only [List.map_cons, List.flatten_cons, List.append_assoc, List.singleton_append]
    rw [splitOnChar_append_cons '\n' l _ hl]
    rw [ih (fun x hx => h x (by simp [hx]))]
    simp

theorem splitOnChar_ne_singleton_nil (sep : Char) (line : List Char) (h : line ≠ []) :
    splitOnChar sep line ≠ [[]] := by
  cases line with
  | nil => exact absurd rfl h
  | cons c rest =>
    simp only [splitOnChar]
    by_cases hc : c = sep
    · rw [if_pos hc]
      intro he
      have := congrArg List.length he
      simp at this
      exact absurd this (splitOnChar_ne_nil sep rest)
    · rw [if_neg hc]
      rcases hsp : splitOnChar sep rest with _ | ⟨h0, t0⟩
      · exact absurd hsp (splitOnChar_ne_nil sep rest)
      · simp

theorem lookup_zip_self (ks : List (List Char)) (vs : List (List Char))
    (hnd : ks.Nodup) (hlen : vs.length = ks.length) (d : List Char) :
    ks.map (fun k => (List.lookup k (ks.zip vs)).getD d) = vs := by
  induction ks generalizing vs with
  | nil => simp at hlen; simp [hlen]
  | cons k ks ih =>
    cases vs with
    | nil => simp at hlen
    | cons v vs =>
      simp only [List.zip_cons_cons, List.map_cons]
      have hnotin : k ∉ ks := (List.nodup_cons.mp hnd).1
      have hnd2 : ks.Nodup := (List.nodup_cons.mp hnd).2
      have hlen2 : vs.length = ks.length := by simp at hlen; omega
      have hcong : ∀ k2 ∈ ks,
          (List.lookup k2 ((k, v) :: ks.zip vs)).getD d
            = (List.lookup k2 (ks.zip vs)).getD d := by
        intro k2 hk2
        have hne : (k2 == k) = false := by
          simp only [beq_eq_false_iff_ne, ne_eq]
          intro he
          exact hnotin (he ▸ hk2)
        simp [List.lookup, hne]
      have h1 : (List.lookup k ((k, v) :: ks.zip vs)).getD d = v := by
        simp [List.lookup]
      rw [h1, List.map_congr_left hcong, ih vs hnd2 hlen2]

theorem getD_toCell (f : List Char) : (toCell f).getD [] = f := by
  unfold toCell
  by_cases h : f = []
  · rw [if_pos h, h]; rfl
  · rw [if_neg h]; rfl

theorem parseRow_inv (n : ℕ) (line : List Char) (cells : List Cell)
    (hp : parseRow n line = some cells) :
    ∃ k, cells = (splitOnChar ',' line).map toCell
          ++ List.replicate k (none : Cell) ∧
        (splitOnChar ',' line).length + k = n := by
  unfold parseRow at hp
  by_cases hlt : n < (splitOnChar ',' line).length
  · simp [hlt] at hp
  · simp only [if_neg hlt, Option.some.injEq] at hp
    exact ⟨n - (splitOnChar ',' line).length, hp.symm, by omega⟩

end StudioFlow

namespace StudioFlow

theorem map_getD_map_toCell_append (fs : List (List Char)) (k : ℕ) :
    (fs.map toCell ++ List.replicate k (none : Cell)).map (fun c => c.getD [])
      = fs ++ List.replicate k ([] : List Char) := by
  induction fs with
  | nil => simp
  | cons f fs ih => simp [getD_toCell, ih]

theorem row_facts (ncols : ℕ) (hpos : 0 < ncols) (line : List Char)
    (hlne : line ≠ []) (hlnl : '\n' ∉ line) (cells : List Cell)
    (hp : parseRow ncols line = some cells) :
    (cells.map (fun c => c.getD [])).length = ncols ∧
    (∀ v ∈ cells.map (fun c => c.getD []), ',' ∉ v ∧ '\n' ∉ v) ∧
    splitOnChar ',' (joinSep ',' (cells.map (fun c => c.getD [])))
      = cells.map (fun c => c.getD []) ∧
    joinSep ',' (cells.map (fun c => c.getD [])) ≠ [] ∧
    '\n' ∉ joinSep ',' (cells.map (fun c => c.getD [])) ∧
    parseRow ncols (joinSep ',' (cells.map (fun c => c.getD [])))
      = some ((cells.map (fun c => c.getD [])).map toCell) ∧
    ((cells.map (fun c => c.getD [])).map toCell).map (fun c => c.getD [])
      = cells.map (fun c => c.getD []) := by
  obtain ⟨k, hc, hk⟩ := parseRow_inv ncols line cells hp
  set fs := splitOnChar ',' line with hfs
  have hvals : cells.map (fun c => c.getD []) = fs ++ List.replicate k [] := by
    rw [hc]
    exact map_getD_map_toCell_append fs k
  have hlen : (cells.map (fun c => c.getD [])).length = ncols := by
    rw [hvals]; simp; omega
  have hmem : ∀ v ∈ cells.map (fun c => c.getD []), ',' ∉ v ∧ '\n' ∉ v := by
    intro v hv
    rw [hvals, List.mem_append] at hv
    rcases hv with hv | hv
    · exact ⟨not_mem_of_mem_splitOnChar ',' line v hv,
        fun hnl => hlnl (mem_of_mem_splitOnChar ',' line v '\n' hv hnl)⟩
    · have : v = [] := List.eq_of_mem_replicate hv
      simp [this]
  have hvne : cells.map (fun c => c.getD []) ≠ [] := by
    intro he
    rw [he] at hlen
    simp at hlen
    omega
  have hvnn : cells.map (fun c => c.getD []) ≠ [[]] := by
    intro he
    have h1 : fs.length + k = 1 := by
      have h2 := congrArg List.length hvals
      rw [he] at h2
      simp at h2
      omega
    have hfsne : fs ≠ [] := splitOnChar_ne_nil ',' line
    have hfspos : 0 < fs.length := List.length_pos.mpr hfsne
    have hk0 : k = 0 := by omega
    have hfseq : fs = [[]] := by
      rw [hk0] at hvals
      simp at hvals
      rw [← hvals]
      exact he
    exact splitOnChar_ne_singleton_nil ',' line hlne hfseq
  have hsjv : splitOnChar ',' (joinSep ',' (cells.map (fun c => c.getD [])))
      = cells.map (fun c => c.getD []) :=
    splitOnChar_joinSep ',' _ hvne (fun v hv => (hmem v hv).1)
  have hjne : joinSep ',' (cells.map (fun c => c.getD [])) ≠ [] := by
    intro he
    rcases (joinSep_eq_nil_iff ',' _).mp he with h | h
    · exact hvne h
    · exact hvnn h
  have hjnl : '\n' ∉ joinSep ',' (cells.map (fun c => c.getD [])) := by
    intro hnl
    rcases mem_joinSep ',' _ '\n' hnl with h | ⟨v, hv, hnv⟩
    · exact absurd h (by decide)
    · exact (hmem v hv).2 hnv
  have hrp : parseRow ncols (joinSep ',' (cells.map (fun c => c.getD [])))
      = some ((cells.map (fun c => c.getD [])).map toCell) := by
    simp only [parseRow]
    rw [hsjv, hlen]
    simp
  have hfinal : ((cells.map (fun c => c.getD [])).map toCell).map (fun c => c.getD [])
      = cells.map (fun c => c.getD []) := by
    have h0 := map_getD_map_toCell_append (cells.map (fun c => c.getD [])) 0
    simpa using h0
  exact ⟨hlen, hmem, hsjv, hjne, hjnl, hrp, hfinal⟩

end StudioFlow

namespace StudioFlow

/-- C5: re-importing the export of a successful import reproduces it. -/
theorem csv_roundtrip (s : List Char) (r : ImportOk)
    (himp : import_csv s = some r)
    (hnd : r.columns.Nodup)
    (hnec : ∀ c ∈ r.columns, c ≠ []) :
    import_csv (export_to_csv r) = some r := by
  unfold import_csv at himp
  rcases Option.map_eq_some'.mp himp with ⟨⟨cols0, rows0⟩, hread, hF⟩
  unfold read_csv at hread
  split at hread
  · exact absurd hread (by simp)
  · rename_i header body heq
    rcases Option.map_eq_some'.mp hread with ⟨rowsA, htrav, hpair⟩
    simp only [Prod.mk.injEq] at hpair
    obtain ⟨hc1, hr1⟩ := hpair
    -- the imported structure in terms of header/body
    have hrc : r.columns = splitOnChar ',' header := by rw [← hF, ← hc1]
    have hrr : r.rows = rowsA.map (fun cells =>
        (splitOnChar ',' header).zip (cells.map (fun c => c.getD []))) := by
      rw [← hF, ← hc1, ← hr1]
    have hrcount : r.rowCount = rowsA.length := by rw [← hF, ← hr1]
    have hrccount : r.columnCount = (splitOnChar ',' header).length := by
      rw [← hF, ← hc1]
    set cols := splitOnChar ',' header with hcols
    -- facts about the header and body lines
    have hhmem : header ∈ splitOnChar '\n' s :=
      List.mem_of_mem_filter (heq ▸ List.mem_cons_self header body)
    have hhnl : '\n' ∉ header := not_mem_of_mem_splitOnChar '\n' s header hhmem
    have hbody : ∀ l ∈ body, l ≠ [] ∧ '\n' ∉ l := by
      intro l hl
      have hlf : l ∈ (splitOnChar '\n' s).filter (· ≠ []) :=
        heq ▸ List.mem_cons_of_mem header hl
      have h1 : l ≠ [] := by simpa using List.of_mem_filter hlf
      exact ⟨h1, not_mem_of_mem_splitOnChar '\n' s l (List.mem_of_mem_filter hlf)⟩
    have hcolsne : cols ≠ [] := splitOnChar_ne_nil ',' header
    have hcolmem : ∀ c ∈ cols, ',' ∉ c ∧ '\n' ∉ c := by
      intro c hc
      exact ⟨not_mem_of_mem_splitOnChar ',' header c hc,
        fun hnl => hhnl (mem_of_mem_splitOnChar ',' header c '\n' hc hnl)⟩
    have hpos : 0 < cols.length := List.length_pos.mpr hcolsne
    have hndc : cols.Nodup := hrc ▸ hnd
    have hnecc : ∀ c ∈ cols, c ≠ [] := fun c hc => hnec c (hrc ▸ hc)
    -- per-row facts
    have hrowfacts : ∀ cells ∈ rowsA,
        (cells.map (fun c => c.getD [])).length = cols.length ∧
        (∀ v ∈ cells.map (fun c => c.getD []), ',' ∉ v ∧ '\n' ∉ v) ∧
        splitOnChar ',' (joinSep ',' (cells.map (fun c => c.getD [])))
          = cells.map (fun c => c.getD []) ∧
        joinSep ',' (cells.map (fun c => c.getD [])) ≠ [] ∧
        '\n' ∉ joinSep ',' (cells.map (fun c => c.getD [])) ∧
        parseRow cols.length (joinSep ',' (cells.map (fun c => c.getD [])))
          = some ((cells.map (fun c => c.getD [])).map toCell) ∧
        ((cells.map (fun c => c.getD [])).map toCell).map (fun c => c.getD [])
          = cells.map (fun c => c.getD []) := by
      intro cells hcell
      rcases exists_of_traverseOpt_eq_some _ _ _ htrav cells hcell with ⟨line, hline, hpl⟩
      exact row_facts cols.length hpos line (hbody line hline).1 (hbody line hline).2
        cells hpl
    -- the exported text
    have hA : (r.rows).map
        (fun row => joinSep ',' (cols.map (fun c => (List.lookup c row).getD [])))
        = rowsA.map (fun (cells : List Cell) => joinSep ',' (cells.map (fun (c : Cell) => c.getD []))) := by
      rw [hrr, List.map_map]
      refine List.map_congr_left ?_
      intro cells hcell
      have hfacts := hrowfacts cells hcell
      simp only [Function.comp_apply]
      rw [lookup_zip_self cols (cells.map (fun c => c.getD [])) hndc hfacts.1 []]
    have hhne2 : joinSep ',' cols ≠ [] := by
      intro he
      rcases (joinSep_eq_nil_iff ',' cols).mp he with h | h
      · exact hcolsne h
      · exact hnecc [] (by rw [h]; simp) rfl
    have hhnl2 : '\n' ∉ joinSep ',' cols := by
      intro hnl
      rcases mem_joinSep ',' cols '\n' hnl with h | ⟨c, hc, hcn⟩
      · exact absurd h (by decide)
      · exact (hcolmem c hc).2 hcn
    have hsplith : splitOnChar ',' (joinSep ',' cols) = cols :=
      splitOnChar_joinSep ',' cols hcolsne (fun c hc => (hcolmem c hc).1)
    have hexp : export_to_csv r
        = (List.map (fun l => l ++ ['\n'])
            (joinSep ',' cols
              :: rowsA.map (fun (cells : List Cell) =>
                joinSep ',' (cells.map (fun (c : Cell) => c.getD []))))).flatten := by
      simp only [export_to_csv]
      rw [hrc, hA]
    have hsplit : splitOnChar '\n' (export_to_csv r)
        = (joinSep ',' cols
            :: rowsA.map (fun (cells : List Cell) => joinSep ',' (cells.map (fun (c : Cell) => c.getD []))))
          ++ [[]] := by
      rw [hexp]
      apply splitOnChar_flatten_lines
      intro l hl
      rcases List.mem_cons.mp hl with h | h
      · subst h; exact hhnl2
      · rcases List.mem_map.mp h with ⟨cells, hcell, hjvl⟩
        rw [← hjvl]
        exact (hrowfacts cells hcell).2.2.2.2.1
    have hfilter : (splitOnChar '\n' (export_to_csv r)).filter (· ≠ [])
        = joinSep ',' cols
          :: rowsA.map (fun (cells : List Cell) => joinSep ',' (cells.map (fun (c : Cell) => c.getD []))) := by
      rw [hsplit, List.filter_append]
      have h2 : ([[]] : List (List Char)).filter (· ≠ []) = [] := by simp
      rw [h2, List.append_nil]
      apply List.filter_eq_self.mpr
      intro l hl
      rcases List.mem_cons.mp hl with h | h
      · subst h; simpa using hhne2
      · rcases List.mem_map.mp h with ⟨cells, hcell, hjvl⟩
        subst hjvl
        simpa using (hrowfacts cells hcell).2.2.2.1
    have htrav2 : traverseOpt (parseRow cols.length)
        (rowsA.map (fun (cells : List Cell) => joinSep ',' (cells.map (fun (c : Cell) => c.getD []))))
        = some ((rowsA.map (fun (cells : List Cell) => joinSep ',' (cells.map (fun (c : Cell) => c.getD [])))).map
            (fun line => (splitOnChar ',' line).map toCell)) := by
      apply traverseOpt_eq_some_of_forall
      intro line hline
      rcases List.mem_map.mp hline with ⟨cells, hcell, hjvl⟩
      subst hjvl
      have hfacts := hrowfacts cells hcell
      rw [hfacts.2.2.1]
      exact hfacts.2.2.2.2.2.1
    have hstep : read_csv (export_to_csv r)
        = (traverseOpt (parseRow (splitOnChar ',' (joinSep ',' cols)).length)
            (rowsA.map (fun (cells : List Cell) => joinSep ',' (cells.map (fun (c : Cell) => c.getD []))))).map
          (fun rows => (splitOnChar ',' (joinSep ',' cols), rows)) := by
      unfold read_csv
      rw [hfilter]
    rw [hsplith] at hstep
    rw [htrav2] at hstep
    have hrows2 : ((rowsA.map (fun (cells : List Cell) => joinSep ',' (cells.map (fun (c : Cell) => c.getD [])))).map
          (fun line => (splitOnChar ',' line).map toCell)).map
          (fun cells => cols.zip (cells.map (fun c => c.getD [])))
        = r.rows := by
      rw [hrr, List.map_map, List.map_map]
      refine List.map_congr_left ?_
      intro cells hcell
      have hfacts := hrowfacts cells hcell
      simp only [Function.comp_apply]
      rw [hfacts.2.2.1, hfacts.2.2.2.2.2.2]
    have hlen2 : ((rowsA.map (fun (cells : List Cell) => joinSep ',' (cells.map (fun (c : Cell) => c.getD [])))).map
          (fun line => (splitOnChar ',' line).map toCell)).length = rowsA.length := by
      simp
    unfold import_csv
    rw [hstep]
    simp only [Option.map_some', Option.some.injEq]
    cases r with
    | mk rcols rrows rcount rccount =>
      simp only [ImportOk.mk.injEq]
      simp only at hrc hrcount hrccount hrows2
      refine ⟨hrc.symm, ?_, ?_, ?_⟩
      · exact hrows2
      · rw [hlen2, hrcount]
      · rw [hrccount]

/-- C5 (witness): a concrete CSV with NaN cells survives the roundtrip. -/
theorem csv_roundtrip_witness :
    import_csv "a,b\n1,\n,2\n".data
      = some ⟨[['a'], ['b']],
              [[(['a'], ['1']), (['b'], [])], [(['a'], []), (['b'], ['2'])]], 2, 2⟩ ∧
    import_csv (export_to_csv
        ⟨[['a'], ['b']],
         [[(['a'], ['1']), (['b'], [])], [(['a'], []), (['b'], ['2'])]], 2, 2⟩)
      = some ⟨[['a'], ['b']],
              [[(['a'], ['1']), (['b'], [])], [(['a'], []), (['b'], ['2'])]], 2, 2⟩ := by
  refine ⟨by decide, ?_⟩
  exact csv_roundtrip "a,b\n1,\n,2\n".data
    ⟨[['a'], ['b']], [[(['a'], ['1']), (['b'], [])], [(['a'], []), (['b'], ['2'])]], 2, 2⟩
    (by decide) (by decide) (by decide)


/-! ### ExportService (`src/backend/services/export_service.py`) -/

/-- A document block as passed in request bodies: `block.get('type', 'p')`,
`block.get('text', '')` and `block.get('content', '')` modelled as the
retrieved strings. -/
structure Block where
  btype : List Char
  text : List Char
  content : List Char
deriving DecidableEq, Repr

/-- One step of `re.sub(r'<[^>]+>', '', text)`: at a `<`, a match needs at
least one non-`>` character before the next `>`; fuel is the string length
(every step consumes at least one character). -/
def stripTagsF : ℕ → List Char → List Char
  | 0, s => s
  | _ + 1, [] => []
  | fuel + 1, c :: rest =>
    if c = '<' then
      match rest.dropWhile (· ≠ '>') with
      | '>' :: tail2 =>
        if rest.takeWhile (· ≠ '>') = [] then c :: stripTagsF fuel rest
        else stripTagsF fuel tail2
      | _ => c :: stripTagsF fuel rest
    else c :: stripTagsF fuel rest

def stripTags (s : List Char) : List Char := stripTagsF s.length s

/-- Model of Python `str.replace(pat, repl)` for a non-empty pattern:
non-overlapping occurrences replaced left to right; fuel is the string
length. -/
def replaceAllF : ℕ → List Char → List Char → List Char → List Char
  | 0, _, _, s => s
  | fuel + 1, pat, repl, s =>
    if pat ≠ [] ∧ pat.isPrefixOf s then
      repl ++ replaceAllF fuel pat repl (s.drop pat.length)
    else
      match s with
      | [] => []
      | c :: rest => c :: replaceAllF fuel pat repl rest

def replaceAll (pat repl s : List Char) : List Char := replaceAllF s.length pat repl s

/-- `ExportService._clean_html`: strip HTML tags, then decode exactly the
four entities nbsp, lt, gt, amp (in that order), then strip whitespace. -/
def clean_html (text : List Char) : List Char :=
  let t := stripTags text
  let t := replaceAll "&nbsp;".data " ".data t
  let t := replaceAll "&lt;".data "<".data t
  let t := replaceAll "&gt;".data ">".data t
  let t := replaceAll "&amp;".data "&".data t
  trimChars t

/-- The two strings a block appends to the markdown list in
`ExportService.export_to_markdown` (empty when the block is skipped). -/
def mdPieces (b : Block) : List (List Char) :=
  if trimChars b.text = [] then []
  else
    [(if b.btype = "h1".data then "# ".data ++ clean_html (trimChars b.text) ++ "\n".data
      else if b.btype = "h2".data then "## ".data ++ clean_html (trimChars b.text) ++ "\n".data
      else if b.btype = "h3".data then "### ".data ++ clean_html (trimChars b.text) ++ "\n".data
      else clean_html (trimChars b.text) ++ "\n".data),
     "\n".data]

/-- `ExportService.export_to_markdown` (`''.join(markdown)`). -/
def export_to_markdown (blocks : List Block) : List Char :=
  ((blocks.map mdPieces).flatten).flatten

def htmlShellA : List Char :=
  "<!DOCTYPE html>\n<html lang=\"en\">\n<head>\n    <meta charset=\"UTF-8\">\n    <meta name=\"viewport\" content=\"width=device-width, initial-scale=1.0\">\n    <title>".data

def htmlShellB : List Char :=
  "</title>\n    <style>\n        body \x7b\n            font-family: \x27Inter\x27, -apple-system, BlinkMacSystemFont, \x27Segoe UI\x27, sans-serif;\n            max-width: 800px;\n            margin: 0 auto;\n            padding: 40px 20px;\n            background: #f9fafb;\n            color: #1a1a24;\n            line-height: 1.6;\n        \x7d\n        h1 \x7b\n            color: #8b5cf6;\n            font-size: 2.5rem;\n            margin-bottom: 1rem;\n        \x7d\n        h2 \x7b\n            color: #1a1a24;\n            font-size: 2rem;\n            margin-top: 2rem;\n            margin-bottom: 0.75rem;\n        \x7d\n        h3 \x7b\n            color: #1a1a24;\n            font-size: 1.5rem;\n            margin-top: 1.5rem;\n            margin-bottom: 0.5rem;\n        \x7d\n        p \x7b\n            margin-bottom: 1rem;\n        \x7d\n        ul, ol \x7b\n            margin-bottom: 1rem;\n            padding-left: 2rem;\n        \x7d\n    </style>\n</head>\n<body>\n    <h1>".data

def htmlShellC : List Char := "</h1>\n".data

/-- The fixed HTML shell of `export_to_html`, with the title interpolated in
the head and in the body heading. -/
def htmlPre (title : List Char) : List Char :=
  htmlShellA ++ title ++ htmlShellB ++ title ++ htmlShellC

def htmlPost : List Char := "</body>\n</html>".data

/-- `ExportService.export_to_html`: the raw `content` field of each
non-skipped block is emitted verbatim inside one tag chosen by its type. -/
def export_to_html (blocks : List Block) (title : List Char) : List Char :=
  (htmlPre title
    :: (blocks.map (fun b =>
        if trimChars b.content = [] then []
        else if b.btype = "h1".data then "    <h1>".data ++ b.content ++ "</h1>\n".data
        else if b.btype = "h2".data then "    <h2>".data ++ b.content ++ "</h2>\n".data
        else if b.btype = "h3".data then "    <h3>".data ++ b.content ++ "</h3>\n".data
        else "    <p>".data ++ b.content ++ "</p>\n".data))
    ++ [htmlPost]).flatten

/-- Model of Python `str.split(pat)` for a non-empty multi-character
separator, with fuel the string length. -/
def splitOnListF (pat : List Char) : ℕ → List Char → List (List Char)
  | 0, s => [s]
  | _ + 1, [] => [[]]
  | fuel + 1, c :: rest =>
    if pat ≠ [] ∧ pat.isPrefixOf (c :: rest) then
      [] :: splitOnListF pat fuel ((c :: rest).drop pat.length)
    else
      match splitOnListF pat fuel rest with
      | [] => [[c]]
      | h :: t => (c :: h) :: t

def splitOnList (pat s : List Char) : List (List Char) := splitOnListF pat s.length s

/-- Model of Python `pat in s` (substring containment), with fuel the
string length. -/
def containsSubF : ℕ → List Char → List Char → Bool
  | 0, pat, s => pat.isPrefixOf s
  | fuel + 1, pat, s =>
    pat.isPrefixOf s ||
      (match s with
       | [] => false
       | _ :: rest => containsSubF fuel pat rest)

def containsSub (pat s : List Char) : Bool := containsSubF s.length pat s

/-- A flowable of the ReportLab story built by `export_to_pdf`; the final
`doc.build` rendering to PDF bytes is external library behaviour and is not
modelled. -/
inductive PdfItem where
  | paragraph (text : List Char) (style : List Char)
  | spacer (w h : ℚ)
  | image (w h : ℚ)
deriving DecidableEq, Repr

def pdfStyleOf (btype : List Char) : List Char :=
  if btype = "h1".data then "CustomH1".data
  else if btype = "h2".data then "CustomH2".data
  else if btype = "h3".data then "CustomH3".data
  else "BodyText".data

/-- `ExportService.export_to_pdf`, modelled at the level of the story list.
`decodeImage` abstracts `base64.b64decode` plus `PIL.Image.open(...).size`
on the cleaned payload: it returns the image (width, height), or `none` when
the library raises (the exception is caught and the block omitted).  Spacer
heights are in points (`inch = 72`). -/
def export_to_pdf (decodeImage : List Char → Option (ℚ × ℚ))
    (blocks : List Block) (title : List Char) : List PdfItem :=
  ([PdfItem.paragraph title "Title".data, PdfItem.spacer 1 (2 / 10 * 72)]
    :: blocks.map (fun b =>
      if b.btype = "graph".data then
        if b.content ≠ [] then
          match decodeImage
              (if containsSub "base64,".data b.content then
                (splitOnList "base64,".data b.content).getD 1 []
              else b.content) with
          | some (w, h) => [PdfItem.image 450 (450 * (h / w)), PdfItem.spacer 1 (2 / 10 * 72)]
          | none => []
        else []
      else
        if trimChars b.text = [] then []
        else
          [PdfItem.paragraph (clean_html (trimChars b.text)) (pdfStyleOf b.btype),
           PdfItem.spacer 1 (1 / 10 * 72)])).flatten

/-- The markdown rendering of one block as the specification words it: a
"# "/"## "/"### " mark for h1/h2/h3, the bare cleaned text for any other
type. -/
def mdLine (b : Block) : List Char :=
  if b.btype = "h1".data then "# ".data ++ clean_html (trimChars b.text)
  else if b.btype = "h2".data then "## ".data ++ clean_html (trimChars b.text)
  else if b.btype = "h3".data then "### ".data ++ clean_html (trimChars b.text)
  else clean_html (trimChars b.text)

/-- The h1/h2/h3/p tag chosen by `export_to_html` for a block type. -/
def htmlTagOf (btype : List Char) : List Char :=
  if btype = "h1".data then "h1".data
  else if btype = "h2".data then "h2".data
  else if btype = "h3".data then "h3".data
  else "p".data

end StudioFlow

namespace StudioFlow

theorem append_middle_congr (A B : List Char) (c : List Char) (A2 B2 : List Char)
    (hA : A = A2) (hB : B = B2) : A ++ c ++ B = A2 ++ c ++ B2 := by
  rw [hA, hB]

theorem mdPieces_flatten (b : Block) (h : trimChars b.text ≠ []) :
    (mdPieces b).flatten = mdLine b ++ "\n".data ++ "\n".data := by
  simp only [mdPieces, mdLine, if_neg h]
  split_ifs <;> simp

theorem md_step (b : Block) (bs : List Block) :
    export_to_markdown (b :: bs) = (mdPieces b).flatten ++ export_to_markdown bs := by
  simp [export_to_markdown, List.flatten_append]

theorem md_shape (blocks : List Block) :
    export_to_markdown blocks
      = ((blocks.filter (fun b => trimChars b.text ≠ [])).map
          (fun b => mdLine b ++ "\n".data ++ "\n".data)).flatten := by
  induction blocks with
  | nil => rfl
  | cons b bs ih =>
    rw [md_step, ih]
    by_cases h : trimChars b.text = []
    · have h1 : mdPieces b = [] := by simp [mdPieces, h]
      simp [h1, List.filter_cons, h]
    · rw [mdPieces_flatten b h]
      simp [List.filter_cons, h]

theorem html_block_piece (b : Block) (h : trimChars b.content ≠ []) :
    (if trimChars b.content = [] then []
     else if b.btype = "h1".data then "    <h1>".data ++ b.content ++ "</h1>\n".data
     else if b.btype = "h2".data then "    <h2>".data ++ b.content ++ "</h2>\n".data
     else if b.btype = "h3".data then "    <h3>".data ++ b.content ++ "</h3>\n".data
     else "    <p>".data ++ b.content ++ "</p>\n".data)
    = ("    <".data ++ htmlTagOf b.btype ++ ">".data) ++ b.content
      ++ ("</".data ++ htmlTagOf b.btype ++ ">\n".data) := by
  rw [if_neg h]
  unfold htmlTagOf
  split_ifs with h1 h2 h3
  · exact append_middle_congr _ _ _ _ _ (by decide) (by decide)
  · exact append_middle_congr _ _ _ _ _ (by decide) (by decide)
  · exact append_middle_congr _ _ _ _ _ (by decide) (by decide)
  · exact append_middle_congr _ _ _ _ _ (by decide) (by decide)

theorem html_blocks_shape (blocks : List Block) :
    (blocks.map (fun b =>
        if trimChars b.content = [] then []
        else if b.btype = "h1".data then "    <h1>".data ++ b.content ++ "</h1>\n".data
        else if b.btype = "h2".data then "    <h2>".data ++ b.content ++ "</h2>\n".data
        else if b.btype = "h3".data then "    <h3>".data ++ b.content ++ "</h3>\n".data
        else "    <p>".data ++ b.content ++ "</p>\n".data)).flatten
      = ((blocks.filter (fun b => trimChars b.content ≠ [])).map
          (fun b => ("    <".data ++ htmlTagOf b.btype ++ ">".data) ++ b.content
            ++ ("</".data ++ htmlTagOf b.btype ++ ">\n".data))).flatten := by
  induction blocks with
  | nil => rfl
  | cons b bs ih =>
    simp only [List.map_cons, List.flatten_cons, ih]
    by_cases h : trimChars b.content = []
    · rw [if_pos h]
      simp [List.filter_cons, h]
    · rw [html_block_piece b h]
      simp [List.filter_cons, h]

theorem flatten_shell (x y : List Char) (M : List (List Char)) :
    ((x :: M) ++ [y]).flatten = x ++ M.flatten ++ y := by
  induction M with
  | nil => simp
  | cons m M ih => simp [List.append_assoc]

theorem html_shape (blocks : List Block) (title : List Char) :
    export_to_html blocks title
      = htmlPre title
        ++ ((blocks.filter (fun b => trimChars b.content ≠ [])).map
            (fun b => ("    <".data ++ htmlTagOf b.btype ++ ">".data) ++ b.content
              ++ ("</".data ++ htmlTagOf b.btype ++ ">\n".data))).flatten
        ++ htmlPost := by
  unfold export_to_html
  rw [flatten_shell, html_blocks_shape]

theorem pdf_paragraphs (decodeImage : List Char → Option (ℚ × ℚ))
    (blocks : List Block) (title : List Char) :
    ∀ t st, PdfItem.paragraph t st ∈ export_to_pdf decodeImage blocks title →
      (t = title ∧ st = "Title".data) ∨
      ∃ b ∈ blocks, b.btype ≠ "graph".data ∧ t = clean_html (trimChars b.text) ∧
        st = pdfStyleOf b.btype := by
  intro t st hmem
  unfold export_to_pdf at hmem
  rw [List.mem_flatten] at hmem
  rcases hmem with ⟨l, hl, hil⟩
  rcases List.mem_cons.mp hl with hl1 | hl2
  · subst hl1
    simp at hil
    exact Or.inl hil
  · rcases List.mem_map.mp hl2 with ⟨b, hb, hfb⟩
    subst hfb
    by_cases hg : b.btype = "graph".data
    · rw [if_pos hg] at hil
      by_cases hc : b.content = []
      · rw [if_neg (by simp [hc])] at hil
        simp at hil
      · rw [if_pos (by simp [hc])] at hil
        split at hil <;> simp at hil
    · rw [if_neg hg] at hil
      by_cases ht : trimChars b.text = []
      · rw [if_pos ht] at hil
        simp at hil
      · rw [if_neg ht] at hil
        simp at hil
        exact Or.inr ⟨b, hb, hg, hil.1, hil.2⟩

/-- C8: `export_to_markdown` emits a "# "/"## "/"### " mark for h1/h2/h3
blocks, the bare cleaned text line for every other type, followed by a blank
line separator after each emitted block, and skips every block whose text is
empty or whitespace-only; in particular a whitespace-only block emits nothing
and an h3 block "T" yields "### T" plus a blank line. -/
theorem markdown_export_shape :
    (∀ blocks : List Block,
      export_to_markdown blocks
        = ((blocks.filter (fun b => trimChars b.text ≠ [])).map
            (fun b => mdLine b ++ "\n".data ++ "\n".data)).flatten) ∧
    export_to_markdown
        [⟨"p".data, "  ".data, "c".data⟩, ⟨"h3".data, "T".data, "c".data⟩]
      = "### T\n\n".data :=
  ⟨md_shape, by decide⟩

/-- C6: `export_to_html` emits each non-skipped block's raw content field
verbatim (no tag stripping, no entity decoding) inside one h1/h2/h3/p tag
chosen by the block type, whereas `export_to_markdown` and `export_to_pdf`
render the block's text field through `clean_html` (tag stripping plus
decoding of exactly the four entities nbsp/lt/gt/amp): every markdown line is
`mdLine` of a cleaned text, and every paragraph of the PDF story other than
the title paragraph carries the cleaned text of some non-graph block. -/
theorem html_raw_vs_cleaned_exports (blocks : List Block) (title : List Char)
    (decodeImage : List Char → Option (ℚ × ℚ)) :
    export_to_html blocks title
      = htmlPre title
        ++ ((blocks.filter (fun b => trimChars b.content ≠ [])).map
            (fun b => ("    <".data ++ htmlTagOf b.btype ++ ">".data) ++ b.content
              ++ ("</".data ++ htmlTagOf b.btype ++ ">\n".data))).flatten
        ++ htmlPost ∧
    export_to_markdown blocks
      = ((blocks.filter (fun b => trimChars b.text ≠ [])).map
          (fun b => mdLine b ++ "\n".data ++ "\n".data)).flatten ∧
    (∀ t st, PdfItem.paragraph t st ∈ export_to_pdf decodeImage blocks title →
      (t = title ∧ st = "Title".data) ∨
      ∃ b ∈ blocks, b.btype ≠ "graph".data ∧ t = clean_html (trimChars b.text) ∧
        st = pdfStyleOf b.btype) :=
  ⟨html_shape blocks title, md_shape blocks, pdf_paragraphs decodeImage blocks title⟩

/-- C6 (witness): an h1 block whose text is "<b>A&amp;B</b>" puts the cleaned
paragraph "A&B" into the PDF story, and the characterization identifies it. -/
theorem html_raw_vs_cleaned_exports_witness :
    (PdfItem.paragraph "A&B".data "CustomH1".data
      ∈ export_to_pdf (fun _ => none)
          [⟨"h1".data, "<b>A&amp;B</b>".data, "c".data⟩] "T".data) ∧
    (("A&B".data = "T".data ∧ "CustomH1".data = "Title".data) ∨
      ∃ b ∈ [(⟨"h1".data, "<b>A&amp;B</b>".data, "c".data⟩ : Block)],
        b.btype ≠ "graph".data ∧ "A&B".data = clean_html (trimChars b.text) ∧
        "CustomH1".data = pdfStyleOf b.btype) := by
  refine ⟨by decide, ?_⟩
  exact (html_raw_vs_cleaned_exports [⟨"h1".data, "<b>A&amp;B</b>".data, "c".data⟩]
    "T".data (fun _ => none)).2.2 "A&B".data "CustomH1".data (by decide)

/-! ### AuthService (`src/backend/services/auth_service.py`)

The identity provider (`firebase_admin.auth`) and the JWT library are
external: token verification is modelled by abstract verifier functions
returning `some claims` on success and `none` on failure (the source
functions return a decoded claims dict or `None`), and the provider's
`update_user` call by an abstract function returning `Except`. -/

/-- The outcome of the `require_auth` decorator on one request: either a 401
JSON error or the wrapped handler running with `request.user = claims`. -/
inductive AuthResult (α : Type) where
  | unauthorized (msg : List Char) (code : ℕ)
  | ok (user : α)
deriving DecidableEq, Repr

/-- `require_auth`: requires an Authorization header, extracts the second
space-delimited token (`auth_header.split(' ')[1]`; a missing index raises
and is caught as a 401), tries identity-provider verification first, then
session-token verification, and rejects with 401 when both fail.  An empty
header string is falsy in Python and is treated as an absent header. -/
def require_auth {α : Type} (verifyFirebase verifySession : List Char → Option α)
    (header : Option (List Char)) : AuthResult α :=
  match header with
  | none => .unauthorized "No authorization header".data 401
  | some h =>
    if h = [] then .unauthorized "No authorization header".data 401
    else
      match (splitOnChar ' ' h)[1]? with
      | none => .unauthorized "Authentication failed".data 401
      | some token =>
        match verifyFirebase token with
        | some decoded => .ok decoded
        | none =>
          match verifySession token with
          | some decoded => .ok decoded
          | none => .unauthorized "Invalid token".data 401

/-- The profile-field allow-list of `AuthService.update_user`. -/
def allowed_fields : List (List Char) :=
  ["email".data, "display_name".data, "photo_url".data, "password".data,
   "disabled".data]

/-- `params = {k: v for k, v in kwargs.items() if k in allowed and v is not None}`. -/
def update_user_params {V : Type} (kwargs : List (List Char × Option V)) :
    List (List Char × V) :=
  kwargs.filterMap (fun kv =>
    match kv.2 with
    | some v => if kv.1 ∈ allowed_fields then some (kv.1, v) else none
    | none => none)

/-- `AuthService.update_user`: filter the keyword arguments through the
allow-list, return `None` (modelled `ok none`) when nothing is left,
otherwise forward exactly the filtered params to the identity provider
(`auth.update_user(uid, **params)`, abstracted as `provider`; its exception
is re-raised, modelled by `Except.error`). -/
def update_user {V P E : Type} (provider : List Char → List (List Char × V) → Except E P)
    (uid : List Char) (kwargs : List (List Char × Option V)) : Except E (Option P) :=
  let params := update_user_params kwargs
  if params.isEmpty then .ok none
  else (provider uid params).map some

/-- C7: the authorization middleware returns 401 when the header is absent
(or empty, which Python treats as falsy), 401 when the header has no
space-delimited scheme (the `split(' ')[1]` IndexError is caught), 401 when
both identity-provider and session verification fail; it runs the handler
with the session claims when only session verification succeeds, and with
the decoded identity claims when identity verification succeeds. -/
theorem auth_middleware_outcomes {α : Type} (fv sv : List Char → Option α) :
    require_auth fv sv none = .unauthorized "No authorization header".data 401 ∧
    require_auth fv sv (some []) = .unauthorized "No authorization header".data 401 ∧
    (∀ h : List Char, h ≠ [] → ' ' ∉ h →
      require_auth fv sv (some h) = .unauthorized "Authentication failed".data 401) ∧
    (∀ h t, h ≠ [] → (splitOnChar ' ' h)[1]? = some t → fv t = none → sv t = none →
      require_auth fv sv (some h) = .unauthorized "Invalid token".data 401) ∧
    (∀ h t c, h ≠ [] → (splitOnChar ' ' h)[1]? = some t → fv t = none → sv t = some c →
      require_auth fv sv (some h) = .ok c) ∧
    (∀ h t c, h ≠ [] → (splitOnChar ' ' h)[1]? = some t → fv t = some c →
      require_auth fv sv (some h) = .ok c) := by
  refine ⟨rfl, rfl, ?_, ?_, ?_, ?_⟩
  · intro h hne hnsp
    simp only [require_auth, if_neg hne]
    rw [splitOnChar_eq_self ' ' h hnsp]
    rfl
  · intro h t hne hidx hfv hsv
    simp only [require_auth, if_neg hne]
    rw [hidx]
    simp only [hfv, hsv]
  · intro h t c hne hidx hfv hsv
    simp only [require_auth, if_neg hne]
    rw [hidx]
    simp only [hfv, hsv]
  · intro h t c hne hidx hfv
    simp only [require_auth, if_neg hne]
    rw [hidx]
    simp only [hfv]

/-- C7 (witness): concrete verifiers exercising all five outcomes. -/
theorem auth_middleware_outcomes_witness :
    require_auth (fun t => if t = "fire".data then some 1 else none)
        (fun t => if t = "sess".data then some 2 else none) none
      = .unauthorized "No authorization header".data 401 ∧
    require_auth (fun t => if t = "fire".data then some 1 else none)
        (fun t => if t = "sess".data then some 2 else none) (some "Bearer".data)
      = .unauthorized "Authentication failed".data 401 ∧
    require_auth (fun t => if t = "fire".data then some 1 else none)
        (fun t => if t = "sess".data then some 2 else none) (some "Bearer bad".data)
      = .unauthorized "Invalid token".data 401 ∧
    require_auth (fun t => if t = "fire".data then some 1 else none)
        (fun t => if t = "sess".data then some 2 else none) (some "Bearer sess".data)
      = .ok 2 ∧
    require_auth (fun t => if t = "fire".data then some 1 else none)
        (fun t => if t = "sess".data then some 2 else none) (some "Bearer fire".data)
      = .ok 1 := by
  refine ⟨(auth_middleware_outcomes _ _).1,
    (auth_middleware_outcomes _ _).2.2.1 "Bearer".data (by decide) (by decide),
    (auth_middleware_outcomes _ _).2.2.2.1 "Bearer bad".data "bad".data (by decide)
      (by decide) (by decide) (by decide),
    (auth_middleware_outcomes _ _).2.2.2.2.1 "Bearer sess".data "sess".data 2 (by decide)
      (by decide) (by decide) (by decide),
    (auth_middleware_outcomes _ _).2.2.2.2.2 "Bearer fire".data "fire".data 1 (by decide)
      (by decide) (by decide)⟩

/-- C9: only fields from the allow-list {email, display_name, photo_url,
password, disabled} are forwarded to the identity provider; filtering out
the non-allow-listed fields first changes nothing, and appending a field
with a name outside the list leaves the whole call's outcome unchanged (it
is silently dropped, never rejected). -/
theorem update_user_allowlist {V P E : Type}
    (provider : List Char → List (List Char × V) → Except E P)
    (uid : List Char) (kwargs : List (List Char × Option V)) :
    (∀ kv ∈ update_user_params kwargs, kv.1 ∈ allowed_fields) ∧
    update_user_params kwargs
      = update_user_params (kwargs.filter (fun kv => kv.1 ∈ allowed_fields)) ∧
    (∀ (k : List Char) (v : Option V), k ∉ allowed_fields →
      update_user provider uid (kwargs ++ [(k, v)]) = update_user provider uid kwargs) := by
  refine ⟨?_, ?_, ?_⟩
  · intro kv hkv
    obtain ⟨kv1, kv2⟩ := kv
    rcases List.mem_filterMap.mp hkv with ⟨x, hx, hfx⟩
    obtain ⟨k, xv⟩ := x
    cases xv with
    | none => simp at hfx
    | some v =>
      by_cases hmem : k ∈ allowed_fields
      · simp [hmem] at hfx
        rw [← hfx.1]
        exact hmem
      · simp [hmem] at hfx
  · induction kwargs with
    | nil => rfl
    | cons kv kws ih =>
      obtain ⟨k, v⟩ := kv
      cases v with
      | none =>
        by_cases hk : k ∈ allowed_fields <;>
          simp [update_user_params, List.filterMap_cons, List.filter_cons, hk] <;>
          simpa [update_user_params] using ih
      | some w =>
        by_cases hk : k ∈ allowed_fields <;>
          simp [update_user_params, List.filterMap_cons, List.filter_cons, hk] <;>
          simpa [update_user_params] using ih
  · intro k v hk
    have hdrop : update_user_params (kwargs ++ [(k, v)]) = update_user_params kwargs := by
      unfold update_user_params
      rw [List.filterMap_append]
      have h0 : List.filterMap (fun kv : List Char × Option V =>
          match kv.2 with
          | some v => if kv.1 ∈ allowed_fields then some (kv.1, v) else none
          | none => none) [(k, v)] = [] := by
        cases v with
        | none => rfl
        | some w => simp [List.filterMap_cons, if_neg hk]
      rw [h0, List.append_nil]
    unfold update_user
    rw [hdrop]

/-- C9 (witness): an unknown field "role" is dropped without affecting the
outcome, and the forwarded params of a mixed call stay in the allow-list. -/
theorem update_user_allowlist_witness :
    (("role".data : List Char) ∉ allowed_fields) ∧
    update_user (fun _ ps => (Except.ok ps.length : Except ℕ ℕ)) "u".data
        [("email".data, some 1), ("role".data, some 2)]
      = update_user (fun _ ps => Except.ok ps.length) "u".data
          [("email".data, some 1)] := by
  refine ⟨by decide, ?_⟩
  exact (update_user_allowlist (fun _ ps => Except.ok ps.length) "u".data
    [("email".data, some 1)]).2.2 "role".data (some 2) (by decide)

/-- C10: the middleware never inspects the authentication scheme: two
headers "s1 t" and "s2 t" with arbitrary space-free scheme words s1, s2 and
the same remainder t produce identical outcomes, because only the second
space-delimited token is extracted and verified. -/
theorem auth_scheme_irrelevant {α : Type} (fv sv : List Char → Option α)
    (s1 s2 t : List Char) (h1 : ' ' ∉ s1) (h2 : ' ' ∉ s2) :
    require_auth fv sv (some (s1 ++ ' ' :: t))
      = require_auth fv sv (some (s2 ++ ' ' :: t)) := by
  have hidx : ∀ s : List Char, ' ' ∉ s →
      (splitOnChar ' ' (s ++ ' ' :: t))[1]? = (splitOnChar ' ' t)[0]? := by
    intro s hs
    rw [splitOnChar_append_cons ' ' s t hs]
    simp
  simp only [require_auth, if_neg (show ¬ (s1 ++ ' ' :: t = []) by simp),
    if_neg (show ¬ (s2 ++ ' ' :: t = []) by simp)]
  rw [hidx s1 h1, hidx s2 h2]

/-- C10 (witness): "Basic tok" and "Bearer tok" authenticate identically. -/
theorem auth_scheme_irrelevant_witness :
    (' ' ∉ "Basic".data) ∧ (' ' ∉ "Bearer".data) ∧
    require_auth (fun t => if t = "tok".data then some 1 else none)
        (fun _ => (none : Option ℕ)) (some ("Basic".data ++ ' ' :: "tok".data))
      = require_auth (fun t => if t = "tok".data then some 1 else none)
          (fun _ => none) (some ("Bearer".data ++ ' ' :: "tok".data)) :=
  ⟨by decide, by decide,
    auth_scheme_irrelevant _ _ "Basic".data "Bearer".data "tok".data
      (by decide) (by decide)⟩

end StudioFlow
